import Mathlib

/-!
Verification of the data-ingestion and aggregation pipeline of the
polar-plant dashboard (`src/main.py`).

The embedding models:
* `unicodedata.normalize` for the NFC form, restricted to the character
  domain of this repository (Hangul syllables and jamo plus ASCII), as
  canonical Hangul composition (`nfc`); the decomposed NFD form is
  modelled by `nfd` for building concrete decomposed filenames;
* `find_file` — the filename Reconciler (`main.py` lines 28-35);
* `load_data` split into `load_env` (lines 52-61) and `load_grow`
  (lines 64-74), over a directory modelled as a list of
  (name, content) entries;
* the aggregation `avg_growth` and `best_school` (lines 174-175) over a
  generic row model (cells tagged numeric or text, matching pandas
  `mean(numeric_only=True)` column dropping and sorted group keys);
* the top-level control flow (lines 79-84) as `pipeline`.

Numeric cells are rationals: every numeric literal appearing in the
claims (EC targets 1.0/2.0/4.0/8.0, the means 2.0-5.0 and 20.0) is
exactly representable both as a binary double and as a rational, so the
float-vs-rational distinction is invisible to the claims checked here.
-/

set_option allowUnsafeReducibility true in
attribute [semireducible] Rat.add Rat.mul Rat.inv Rat.div Rat.sub Rat.ofScientific

/-- Leading consonant jamo range (U+1100 to U+1112). -/
def isL (c : Char) : Bool := 0x1100 ≤ c.toNat ∧ c.toNat ≤ 0x1112

/-- Vowel jamo range (U+1161 to U+1175). -/
def isV (c : Char) : Bool := 0x1161 ≤ c.toNat ∧ c.toNat ≤ 0x1175

/-- Trailing consonant jamo range (U+11A8 to U+11C2). -/
def isT (c : Char) : Bool := 0x11A8 ≤ c.toNat ∧ c.toNat ≤ 0x11C2

/-- Precomposed Hangul syllable with no trailing consonant (an LV
syllable, i.e. its index in the syllable block is divisible by 28). -/
def isLV (c : Char) : Bool :=
  0xAC00 ≤ c.toNat ∧ c.toNat ≤ 0xD7A3 ∧ (c.toNat - 0xAC00) % 28 = 0

/-- One step of canonical Hangul composition over a reversed
accumulator: compose L+V into an LV syllable and LV+T into an LVT
syllable, otherwise push the character unchanged. -/
def composeStep (acc : List Char) (c : Char) : List Char :=
  match acc with
  | [] => [c]
  | prev :: tail =>
    if isL prev ∧ isV c then
      Char.ofNat (0xAC00 + ((prev.toNat - 0x1100) * 21 + (c.toNat - 0x1161)) * 28) :: tail
    else if isLV prev ∧ isT c then
      Char.ofNat (prev.toNat + (c.toNat - 0x11A7)) :: tail
    else
      c :: prev :: tail

/-- Model of `unicodedata.normalize` with the NFC form, for the
character domain used by this repository (Hangul and ASCII): canonical
Hangul composition; all other characters pass through unchanged. -/
def nfc (s : String) : String := ⟨(s.data.foldl composeStep []).reverse⟩

/-- Canonical Hangul decomposition of one character: a precomposed
syllable becomes its jamo sequence, everything else is unchanged. -/
def decomposeChar (c : Char) : List Char :=
  let n := c.toNat
  if 0xAC00 ≤ n ∧ n ≤ 0xD7A3 then
    let s := n - 0xAC00
    let l := Char.ofNat (0x1100 + s / 588)
    let v := Char.ofNat (0x1161 + (s % 588) / 28)
    if s % 28 = 0 then [l, v] else [l, v, Char.ofNat (0x11A7 + s % 28)]
  else [c]

/-- Model of the NFD form on the same domain: used to build the
decomposed spellings that a filesystem may store for the Korean
filenames. -/
def nfd (s : String) : String := ⟨s.data.flatMap decomposeChar⟩

/-- One row of a per-school environmental CSV as `pd.read_csv` yields
it (spec section 6: a time-like column plus temperature, humidity, pH
and measured EC). -/
structure EnvCsvRow where
  time : String
  temperature : Rat
  humidity : Rat
  ph : Rat
  ec : Rat
deriving DecidableEq, Repr

/-- An environmental row after `load_data` appended the `school` and
`target_ec` columns (`main.py` lines 57-58). -/
structure EnvRow where
  base : EnvCsvRow
  school : String
  target_ec : Rat
deriving DecidableEq, Repr

/-- One cell of a growth sheet: pandas distinguishes numeric columns
from object (text) columns, and `mean(numeric_only=True)` keeps only
the former. -/
inductive CellValue where
  | num (q : Rat)
  | str (s : String)
deriving DecidableEq, Repr

/-- Raw cells of one spreadsheet row, keyed by column header. -/
abbrev RawCells := List (String × CellValue)

/-- A growth row after the loader tagged it with its sheet name
(`main.py` line 71 sets the `school` column). -/
structure GrowthRow where
  school : String
  cells : RawCells
deriving DecidableEq, Repr

/-- Content of one file in the `data` directory: an environmental CSV,
or the growth workbook with its named sheets. -/
inductive FileContent where
  | csv (rows : List EnvCsvRow)
  | xlsx (sheets : List (String × List RawCells))
deriving DecidableEq, Repr

/-- A directory listing: the names the filesystem reports (possibly in
decomposed form) with the parsed content behind each name. -/
abbrev DirListing := List (String × FileContent)

/-- Reconciler of `main.py` lines 28-35: normalize the target once,
then return the first directory entry whose normalized name matches;
`none` when no entry matches.  The Python loop applies only string
normalization to each entry, so unrelated entries can never raise. -/
def find_file (listing : DirListing) (target_name : String) : Option (String × FileContent) :=
  let target_norm := nfc target_name
  listing.find? (fun file => nfc file.1 = target_norm)

/-- Static per-school configuration (`main.py` lines 45-50). -/
structure SchoolInfo where
  ec_target : Rat
  file : String
  color : String
deriving DecidableEq, Repr

/-- The `school_info` mapping of `main.py` lines 45-50, in its
insertion order.  The Python floats 1.0, 2.0, 4.0, 8.0 are the exact
rationals 1, 2, 4, 8. -/
def school_info : List (String × SchoolInfo) :=
  [("송도고", ⟨1, "송도고_환경데이터.csv", "#AB63FA"⟩),
   ("하늘고", ⟨2, "하늘고_환경데이터.csv", "#EF553B"⟩),
   ("아라고", ⟨4, "아라고_환경데이터.csv", "#00CC96"⟩),
   ("동산고", ⟨8, "동산고_환경데이터.csv", "#636EFA"⟩)]

/-- Decidable form of the resolution hypothesis: the logical filename
resolves to a directory entry holding CSV content. -/
def resolvesCsv (dir : DirListing) (target : String) : Bool :=
  match find_file dir target with
  | some (_, .csv _) => true
  | _ => false

/-- Rows of the CSV that a logical filename resolves to, empty when the
file does not resolve (or is not a CSV). -/
def csvRowsAt (dir : DirListing) (target : String) : List EnvCsvRow :=
  match find_file dir target with
  | some (_, .csv rows) => rows
  | _ => []

/-- Environmental half of `load_data` (`main.py` lines 52-61): for each
configured school in order, resolve its file through the Reconciler;
when it resolves, tag every parsed row with the school name and the
configured EC target and append; a school whose file does not resolve
is skipped silently.  `pd.concat` of the collected frames is the
flattening. -/
def load_env (dir : DirListing) : List EnvRow :=
  school_info.flatMap (fun p =>
    (csvRowsAt dir p.2.file).map (fun r => ⟨r, p.1, p.2.ec_target⟩))

/-- Logical filename of the growth workbook (`main.py` line 64). -/
def growth_filename : String := "4개교_생육결과데이터.xlsx"

/-- Python dict assignment `d[k] = v` on an association list that keeps
at most one entry per key: replace in place when the key is present
(keeping its original position, as dicts do), otherwise append. -/
def dictInsert (d : List (String × α)) (k : String) (v : α) : List (String × α) :=
  if d.any (fun p => p.1 = k) then
    d.map (fun p => if p.1 = k then (k, v) else p)
  else
    d ++ [(k, v)]

/-- The `growth_data` dict built by `main.py` lines 65-72: for each
sheet in workbook order, normalize its name, tag every row of the sheet
with the normalized name, and store the frame under the normalized name
— a later sheet whose name normalizes equally overwrites an earlier
one. -/
def growthSheetsDict (sheets : List (String × List RawCells)) : List (String × List GrowthRow) :=
  sheets.foldl (fun d sheet =>
    dictInsert d (nfc sheet.1) (sheet.2.map (fun r => ⟨nfc sheet.1, r⟩))) []

/-- Growth half of `load_data` (`main.py` lines 64-74): resolve the
workbook, build the sheet dict, and concatenate the dict values; an
unresolved workbook gives the empty table. -/
def load_grow (dir : DirListing) : List GrowthRow :=
  match find_file dir growth_filename with
  | some (_, .xlsx sheets) => (growthSheetsDict sheets).flatMap (fun p => p.2)
  | _ => []

/-- Column headers of a growth table, read off its first row (sheets
are assumed to share one column set, spec section 4.3). -/
def colsOf (t : List GrowthRow) : List String :=
  match t with
  | [] => []
  | r :: _ => r.cells.map (fun p => p.1)

/-- Value of a cell when it is numeric. -/
def cellNum? (v : CellValue) : Option Rat :=
  match v with
  | .num q => some q
  | .str _ => none

/-- Numeric value of a row at a column header, defaulting to 0; the
default is never reached on columns certified numeric. -/
def numAt (r : GrowthRow) (c : String) : Rat :=
  match r.cells.find? (fun p => p.1 = c) with
  | some p => (cellNum? p.2).getD 0
  | none => 0

/-- Columns that pandas treats as numeric for the whole concatenated
frame: every row holds a numeric cell there.  `mean(numeric_only=True)`
keeps exactly these (the `school` tag is a separate non-numeric
column and is never among them). -/
def numericCols (t : List GrowthRow) : List String :=
  (colsOf t).filter (fun c =>
    t.all (fun r => ((r.cells.find? (fun p => p.1 = c)).bind (fun p => cellNum? p.2)).isSome))

/-- Arithmetic mean of a list of rationals (0 on the empty list, which
never arises for a group key taken from the table). -/
def listMean (xs : List Rat) : Rat := xs.sum / xs.length

/-- Code-point lexicographic comparison of character lists: how Python
(and hence pandas group-key sorting) compares the school strings. -/
def charListLe : List Char → List Char → Bool
  | [], _ => true
  | _ :: _, [] => false
  | a :: as, b :: bs =>
    if a.toNat < b.toNat then true
    else if b.toNat < a.toNat then false
    else charListLe as bs

/-- String comparison as Python performs it, by code points. -/
def strLe (a b : String) : Bool := charListLe a.data b.data

/-- Insert into a sorted list, used by the group-key sort. -/
def insertSorted (le : α → α → Bool) (x : α) : List α → List α
  | [] => [x]
  | y :: ys => if le x y then x :: y :: ys else y :: insertSorted le x ys

/-- Insertion sort on a boolean comparison; `pandas.groupby` sorts the
group keys ascending with it. -/
def sortBy (le : α → α → Bool) : List α → List α
  | [] => []
  | x :: xs => insertSorted le x (sortBy le xs)

/-- One output row of `growth_df.groupby(school).mean(numeric_only=True)
.reset_index()`: the group key and the per-column means. -/
structure SummaryRow where
  school : String
  means : List (String × Rat)
deriving DecidableEq, Repr

/-- The aggregation of `main.py` line 174: group keys are the distinct
school values sorted ascending (pandas `groupby` sorts keys), and each
group row carries the mean of every numeric column over that group.  No
join with `school_info` happens here. -/
def avg_growth (t : List GrowthRow) : List SummaryRow :=
  let keys := sortBy strLe ((t.map (fun r => r.school)).dedup)
  keys.map (fun k =>
    let grp := t.filter (fun r => r.school = k)
    ⟨k, (numericCols t).map (fun c => (c, listMean (grp.map (fun r => numAt r c))))⟩)

/-- Mean fresh weight recorded in a summary row (the Python indexes the
mandatory 생중량(g) column; 0 stands in where the column is absent, a
case the Python would raise on and no claim exercises). -/
def freshAt (row : SummaryRow) : Rat :=
  match row.means.find? (fun p => p.1 = "생중량(g)") with
  | some p => p.2
  | none => 0

/-- The `best_school` of `main.py` line 175: `idxmax` keeps the first
row attaining the maximal mean fresh weight; `none` models the raise on
an empty frame, which the pipeline guard rules out. -/
def best_school (summary : List SummaryRow) : Option String :=
  match summary with
  | [] => none
  | r :: rest => some ((rest.foldl (fun b x => if freshAt b < freshAt x then x else b) r).school)

/-- Outcome of one dashboard run: the error messages reported and, when
the run reaches the analysis, the summary table with the reported best
school. -/
structure RunResult where
  errors : List String
  output : Option (List SummaryRow × Option String)
deriving DecidableEq, Repr

/-- Top-level control flow of `main.py` lines 39-84 and 174-175.  A
missing `data` directory reports an error inside `load_data` and then
halts before any analysis: `load_data` returns the 2-tuple
`(None, None)` which fails to unpack into the three names of line 80,
stopping the script.  An empty environmental or growth table reports an
error and stops (lines 82-84).  Otherwise the run reaches the analysis
of lines 174-175. -/
def pipeline (root : Option DirListing) : RunResult :=
  match root with
  | none => ⟨["data 폴더를 찾을 수 없습니다."], none⟩
  | some dir =>
    let env_df := load_env dir
    let growth_df := load_grow dir
    if env_df = [] ∨ growth_df = [] then
      ⟨["데이터 파일을 로드하지 못했습니다. 파일명과 경로를 확인해주세요."], none⟩
    else
      let summary := avg_growth growth_df
      ⟨[], some (summary, best_school summary)⟩

/-- Sample environmental reading used by the concrete scenarios. -/
def sampleEnvRow : EnvCsvRow := ⟨"2024-01-01 09:00", 18, 55, 6, 2⟩

/-- Growth cells of one specimen with the three measured columns plus a
text remark column (exercising the non-numeric dropping). -/
def mkGrowthCells (w : Rat) : RawCells :=
  [("생중량(g)", .num w), ("잎 수(장)", .num 10), ("지상부 길이(mm)", .num 100), ("비고", .str "ok")]

/-- One sheet of specimens with the given fresh weights. -/
def demoSheet (ws : List Rat) : List RawCells := ws.map mkGrowthCells

/-- The four sheets of the scenario of spec section 8: five specimens
per school, mean fresh weights 3.0 / 5.0 / 4.0 / 2.0 for the schools
with EC targets 1.0 / 2.0 / 4.0 / 8.0; two sheet names are stored in
decomposed form. -/
def sheetsDemo : List (String × List RawCells) :=
  [(nfd "송도고", demoSheet [1, 2, 3, 4, 5]),
   ("하늘고", demoSheet [3, 4, 5, 6, 7]),
   (nfd "아라고", demoSheet [2, 3, 4, 5, 6]),
   ("동산고", demoSheet [0, 1, 2, 3, 4])]

/-- Concrete `data` directory of the scenario: the four environmental
CSVs (one stored under its decomposed name) and the growth workbook
(also stored decomposed). -/
def dirDemo : DirListing :=
  [(nfd "송도고_환경데이터.csv", .csv [sampleEnvRow]),
   ("하늘고_환경데이터.csv", .csv [sampleEnvRow, sampleEnvRow]),
   ("아라고_환경데이터.csv", .csv [sampleEnvRow]),
   ("동산고_환경데이터.csv", .csv [sampleEnvRow]),
   (nfd "4개교_생육결과데이터.xlsx", .xlsx sheetsDemo)]

/-- The 10g / 20g / 30g group of spec section 8, as one growth table. -/
def growth102030 : List GrowthRow :=
  [⟨"하늘고", [("생중량(g)", .num 10)]⟩, ⟨"하늘고", [("생중량(g)", .num 20)]⟩,
   ⟨"하늘고", [("생중량(g)", .num 30)]⟩]

/-- A growth table whose only school name has no `school_info` entry. -/
def noCfgT : List GrowthRow := [⟨"새론고", [("생중량(g)", .num 1)]⟩]

/-- A workbook whose two sheet names differ as strings but normalize to
the same NFC form. -/
def collideSheets : List (String × List RawCells) :=
  [(nfd "하늘고", [mkGrowthCells 1]), ("하늘고", [mkGrowthCells 2, mkGrowthCells 3])]

/-- Directory holding only the colliding-sheet workbook. -/
def collideDir : DirListing := [(growth_filename, .xlsx collideSheets)]

/-- A workbook with two sheets of which one holds no rows. -/
def emptySheets : List (String × List RawCells) :=
  [("하늘고", []), ("송도고", [mkGrowthCells 1])]

/-- Directory holding only the workbook with an empty sheet. -/
def emptySheetDir : DirListing := [(growth_filename, .xlsx emptySheets)]

/-- One-sheet workbook whose single specimen weighs 1g. -/
def sheetsAltA : List (String × List RawCells) := [("하늘고", [mkGrowthCells 1])]

/-- One-sheet workbook whose single specimen weighs 2g. -/
def sheetsAltB : List (String × List RawCells) := [("하늘고", [mkGrowthCells 2])]

/-- A listing holding one environmental CSV and two distinct entries
whose names are both NFC-equal to the workbook's logical filename (the
decomposed and the composed spelling), with different content. -/
def orderDirA : DirListing :=
  [("하늘고_환경데이터.csv", .csv [sampleEnvRow]),
   (nfd "4개교_생육결과데이터.xlsx", .xlsx sheetsAltA),
   ("4개교_생육결과데이터.xlsx", .xlsx sheetsAltB)]

/-- The same listing with its two workbook entries swapped: the same
set of files in a different iteration order. -/
def orderDirB : DirListing :=
  [("하늘고_환경데이터.csv", .csv [sampleEnvRow]),
   ("4개교_생육결과데이터.xlsx", .xlsx sheetsAltB),
   (nfd "4개교_생육결과데이터.xlsx", .xlsx sheetsAltA)]

/-- C1: the Reconciler returns an entry exactly when the listing holds
an entry whose name is NFC-equal to the target; a returned entry is a
listing entry whose name is NFC-equal to the target; and with no such
entry it returns `none` — it is a total function of the listing, so
unrelated entries can never make it raise. -/
theorem find_file_iff_nfc_match (listing : DirListing) (target : String) :
    ((find_file listing target).isSome ↔ ∃ e ∈ listing, nfc e.1 = nfc target) ∧
    (∀ e, find_file listing target = some e → e ∈ listing ∧ nfc e.1 = nfc target) ∧
    ((∀ e ∈ listing, nfc e.1 ≠ nfc target) → find_file listing target = none) := by
  unfold find_file
  refine ⟨by simp [List.find?_isSome], ?_, ?_⟩
  · intro e h
    exact ⟨List.mem_of_find?_eq_some h, by simpa using List.find?_some h⟩
  · intro h
    exact List.find?_eq_none.mpr (by simpa using h)

/-- Witness for C1: a decomposed stored name resolves against the
composed target, and an unrelated listing yields `none`. -/
theorem find_file_iff_nfc_match_witness :
    (find_file [(nfd "송도고_환경데이터.csv", .csv [])] "송도고_환경데이터.csv").isSome = true ∧
    find_file [("README.txt", .csv [])] "송도고_환경데이터.csv" = none :=
  ⟨(find_file_iff_nfc_match _ _).1.mpr ⟨(nfd "송도고_환경데이터.csv", .csv []), by decide, by decide⟩,
   (find_file_iff_nfc_match _ _).2.2 (by decide)⟩

/-- C2: when every configured school's environmental file resolves
(under whichever normalization form the filesystem stored), the unified
environmental table has as many rows as the four files together, and
every row carries the `target_ec` constant configured for the school it
was loaded for. -/
theorem load_env_counts_and_targets (dir : DirListing)
    (h : ∀ p ∈ school_info, resolvesCsv dir p.2.file = true) :
    (load_env dir).length = (school_info.map (fun p => (csvRowsAt dir p.2.file).length)).sum ∧
    ∀ r ∈ load_env dir, ∃ info, (r.school, info) ∈ school_info ∧ r.target_ec = info.ec_target := by
  constructor
  · simp [load_env, List.length_flatMap, Function.comp_def, List.length_map]
  · intro r hr
    rcases List.mem_flatMap.mp hr with ⟨p, hp, hr'⟩
    rcases List.mem_map.mp hr' with ⟨row, _, rfl⟩
    exact ⟨p.2, by simpa using hp, rfl⟩

/-- Witness for C2: in the concrete scenario directory (one file stored
decomposed) all four files resolve and the row count adds up. -/
theorem load_env_counts_and_targets_witness :
    (load_env dirDemo).length =
      (school_info.map (fun p => (csvRowsAt dirDemo p.2.file).length)).sum :=
  (load_env_counts_and_targets dirDemo (by decide)).1

/-- C5: on the concrete scenario dataset (four sheets of five records,
mean fresh weights 3.0 / 5.0 / 4.0 / 2.0 for the schools with EC
targets 1.0 / 2.0 / 4.0 / 8.0) the summary has exactly four rows, the
per-school mean fresh weights are as configured, and the reported best
school is 하늘고 — the school whose EC target is 2.0. -/
theorem scenario_best_school :
    (avg_growth (load_grow dirDemo)).length = 4 ∧
    (avg_growth (load_grow dirDemo)).map freshAt = [2, 3, 4, 5] ∧
    (avg_growth (load_grow dirDemo)).map (fun row => row.school) =
      ["동산고", "송도고", "아라고", "하늘고"] ∧
    best_school (avg_growth (load_grow dirDemo)) = some "하늘고" ∧
    ("하늘고", (2 : Rat)) ∈ school_info.map (fun p => (p.1, p.2.ec_target)) ∧
    (pipeline (some dirDemo)).output =
      some (avg_growth (load_grow dirDemo), some "하늘고") := by
  decide

/-- C7: a missing root data directory reports an error and the run
yields no analysis output at all — in the source the error message of
line 42 is shown and the 2-tuple returned at line 43 fails to unpack
into the three names of line 80, halting the script before any
filtering, aggregation or rendering. -/
theorem pipeline_missing_root_halts :
    (pipeline none).errors ≠ [] ∧ (pipeline none).output = none := by
  decide

/-- C8: when no environmental file resolves the environmental table is
empty; when the growth workbook does not resolve the growth table is
empty; and an empty table of either kind makes the pipeline report an
error and render nothing. -/
theorem pipeline_empty_tables_halt (dir : DirListing) :
    ((∀ p ∈ school_info, find_file dir p.2.file = none) → load_env dir = []) ∧
    (find_file dir growth_filename = none → load_grow dir = []) ∧
    ((load_env dir = [] ∨ load_grow dir = []) →
      (pipeline (some dir)).errors ≠ [] ∧ (pipeline (some dir)).output = none) := by
  refine ⟨?_, ?_, ?_⟩
  · intro h
    refine List.flatMap_eq_nil_iff.mpr ?_
    intro p hp
    simp [csvRowsAt, h p hp]
  · intro h
    simp [load_grow, h]
  · intro h
    rcases h with h | h <;> simp [pipeline, h]

/-- Witness for C8: the empty directory resolves nothing and the run
stops with an error. -/
theorem pipeline_empty_tables_halt_witness :
    load_grow [] = [] ∧ (pipeline (some [])).output = none := by
  have h := pipeline_empty_tables_halt []
  exact ⟨h.2.1 (by decide), (h.2.2 (Or.inl (h.1 (by decide)))).2⟩

/-- Two listings that are permutations of each other and whose
normalized names are pairwise distinct resolve every target alike. -/
theorem find_file_perm_invariant (d d' : DirListing) (hperm : d.Perm d')
    (hnd : d.Pairwise (fun a b => nfc a.1 ≠ nfc b.1)) (target : String) :
    find_file d target = find_file d' target := by
  have hsymm : Symmetric (fun a b : String × FileContent => nfc a.1 ≠ nfc b.1) :=
    fun a b hab hba => hab hba.symm
  cases hd : find_file d target with
  | none =>
    have hnone : ∀ e ∈ d, ¬ nfc e.1 = nfc target := by
      have := List.find?_eq_none.mp hd
      simpa using this
    symm
    exact List.find?_eq_none.mpr (by simpa using fun e he => hnone e (hperm.mem_iff.mpr he))
  | some e =>
    have hmem : e ∈ d := List.mem_of_find?_eq_some hd
    have hpe : nfc e.1 = nfc target := by simpa using List.find?_some hd
    cases hd' : find_file d' target with
    | none =>
      exfalso
      have := List.find?_eq_none.mp hd' e (hperm.mem_iff.mp hmem)
      simp [hpe] at this
    | some e' =>
      have hmem' : e' ∈ d := hperm.mem_iff.mpr (List.mem_of_find?_eq_some hd')
      have hpe' : nfc e'.1 = nfc target := by simpa using List.find?_some hd'
      have : e = e' := by
        by_contra hne
        exact hnd.forall hsymm hmem hmem' hne (hpe.trans hpe'.symm)
      rw [this]

/-- C9 counterexample: the unconditional order-independence claim is
false of the code.  `orderDirA` and `orderDirB` are permutations of
each other — the same files, listed in a different iteration order —
but they hold two distinct entries whose names are NFC-equal to the
workbook's logical filename, so `find_file` (first match in `iterdir`
order, `main.py` line 32-34) resolves the workbook differently and the
two runs produce different summaries. -/
theorem pipeline_order_dependent_counterexample :
    orderDirA.Perm orderDirB ∧
    pipeline (some orderDirA) ≠ pipeline (some orderDirB) := by
  constructor
  · exact List.Perm.cons _ (List.Perm.swap _ _ _)
  · decide

/-- C9 amended: the pipeline is a pure function of the listing (no
randomness), and for a directory whose NFC-normalized names are
pairwise distinct — NFC-equal duplicate names are exactly the case the
counterexample shows order-dependent — permuting the filesystem
listing (its iteration order) leaves the entire run result, summary
table included, unchanged. -/
theorem pipeline_deterministic (d d' : DirListing) (hperm : d.Perm d')
    (hnd : d.Pairwise (fun a b => nfc a.1 ≠ nfc b.1)) :
    pipeline (some d) = pipeline (some d') := by
  have hff : ∀ t, find_file d t = find_file d' t :=
    fun t => find_file_perm_invariant d d' hperm hnd t
  have henv : load_env d = load_env d' := by
    simp [load_env, csvRowsAt, hff]
  have hgrow : load_grow d = load_grow d' := by
    simp [load_grow, hff]
  simp [pipeline, henv, hgrow]

/-- Witness for C9 (amended): swapping the two entries of a concrete
listing with distinct normalized names leaves the run result
unchanged. -/
theorem pipeline_deterministic_witness :
    pipeline (some [("하늘고_환경데이터.csv", .csv [sampleEnvRow]),
                    (nfd "4개교_생육결과데이터.xlsx", .xlsx sheetsDemo)]) =
      pipeline (some [(nfd "4개교_생육결과데이터.xlsx", .xlsx sheetsDemo),
                      ("하늘고_환경데이터.csv", .csv [sampleEnvRow])]) :=
  pipeline_deterministic _ _ (List.Perm.swap _ _ _) (by decide)

theorem mem_insertSorted (le : α → α → Bool) (x a : α) (l : List α) :
    a ∈ insertSorted le x l ↔ a = x ∨ a ∈ l := by
  induction l with
  | nil => simp [insertSorted]
  | cons y ys ih =>
    simp only [insertSorted]
    split
    · simp [List.mem_cons]
    · simp [List.mem_cons, ih]
      tauto

theorem mem_sortBy (le : α → α → Bool) (a : α) (l : List α) :
    a ∈ sortBy le l ↔ a ∈ l := by
  induction l with
  | nil => simp [sortBy]
  | cons x xs ih => simp [sortBy, mem_insertSorted, ih]

theorem length_insertSorted (le : α → α → Bool) (x : α) (l : List α) :
    (insertSorted le x l).length = l.length + 1 := by
  induction l with
  | nil => simp [insertSorted]
  | cons y ys ih =>
    simp only [insertSorted]
    split
    · simp
    · simp [ih]

theorem length_sortBy (le : α → α → Bool) (l : List α) :
    (sortBy le l).length = l.length := by
  induction l with
  | nil => rfl
  | cons x xs ih => simp [sortBy, length_insertSorted, ih]

/-- Every summary row of the aggregator belongs to a school present in
the table, and its means are the per-column group means of that
school. -/
theorem avg_growth_row (t : List GrowthRow) (row : SummaryRow)
    (hrow : row ∈ avg_growth t) :
    row.school ∈ t.map (fun r => r.school) ∧
    row.means = (numericCols t).map (fun c =>
      (c, listMean ((t.filter (fun r => r.school = row.school)).map (fun r => numAt r c)))) := by
  simp only [avg_growth] at hrow
  rcases List.mem_map.mp hrow with ⟨k, hk, rfl⟩
  refine ⟨?_, rfl⟩
  exact List.mem_dedup.mp ((mem_sortBy _ _ _).mp hk)

/-- Every school present in the table yields a summary row. -/
theorem avg_growth_mem_of_school (t : List GrowthRow) (k : String)
    (hk : k ∈ t.map (fun r => r.school)) :
    ∃ row ∈ avg_growth t, row.school = k := by
  simp only [avg_growth]
  exact ⟨_, List.mem_map.mpr ⟨k, (mem_sortBy _ _ _).mpr (List.mem_dedup.mpr hk), rfl⟩, rfl⟩

/-- C4: the per-school aggregate is the arithmetic mean of each numeric
column over that school's records; the summary rows carry exactly the
numeric columns (non-numeric ones are dropped, not errored on); a
school with no records contributes no row; and the mean over the
concrete group 10.0 / 20.0 / 30.0 is exactly 20.0. -/
theorem avg_growth_is_group_mean (t : List GrowthRow) (k c : String) :
    (t.filter (fun r => r.school = k) = [] → ∀ row ∈ avg_growth t, row.school ≠ k) ∧
    (∀ row ∈ avg_growth t, row.means.map (fun p => p.1) = numericCols t) ∧
    (∀ row ∈ avg_growth t, ∀ q, (c, q) ∈ row.means →
      q = listMean ((t.filter (fun r => r.school = row.school)).map (fun r => numAt r c))) ∧
    listMean [10, 20, 30] = 20 ∧
    avg_growth growth102030 = [⟨"하늘고", [("생중량(g)", 20)]⟩] := by
  refine ⟨?_, ?_, ?_, by decide, by decide⟩
  · intro hempty row hrow hks
    have h := (avg_growth_row t row hrow).1
    rw [hks] at h
    rcases List.mem_map.mp h with ⟨r, hr, hrk⟩
    have : r ∈ t.filter (fun r => r.school = k) := List.mem_filter.mpr ⟨hr, by simp [hrk]⟩
    simp [hempty] at this
  · intro row hrow
    rw [(avg_growth_row t row hrow).2]
    simp [Function.comp_def]
  · intro row hrow q hq
    rw [(avg_growth_row t row hrow).2] at hq
    rcases List.mem_map.mp hq with ⟨c', _, heq⟩
    injection heq with h1 h2
    subst h1
    exact h2.symm

/-- Witness for C4: the 10/20/30 table has no row for an absent school
and its group mean is exactly 20. -/
theorem avg_growth_is_group_mean_witness :
    (∀ row ∈ avg_growth growth102030, row.school ≠ "0교") ∧
    (20 : Rat) = listMean ((growth102030.filter
      (fun r => r.school = "하늘고")).map (fun r => numAt r "생중량(g)")) := by
  have h := avg_growth_is_group_mean growth102030 "0교" "생중량(g)"
  refine ⟨h.1 (by decide), ?_⟩
  have h3 := h.2.2.1 ⟨"하늘고", [("생중량(g)", 20)]⟩ (by decide) 20 (by decide)
  simpa using h3

/-- C6 counterexample: the aggregate of `main.py` line 174 performs no
join with `school_info` — a school name with no configuration entry
still contributes a summary row (it is not dropped), and no `ec_target`
column is attached to the summary at all. -/
theorem avg_growth_no_join_counterexample :
    school_info.all (fun p => p.1 ≠ "새론고") = true ∧
    (avg_growth noCfgT).map (fun row => row.school) = ["새론고"] ∧
    (∀ row ∈ avg_growth noCfgT, "ec_target" ∉ row.means.map (fun p => p.1)) := by
  decide

/-- C6 amended: the aggregator joins nothing from `SchoolConfig`: its
summary has one row per school present in the growth table — whether or
not that school has a `school_info` entry — and each row carries only
the means of the numeric growth columns (no `ec_target`). -/
theorem avg_growth_no_config_join (t : List GrowthRow) (k : String) :
    ((∃ row ∈ avg_growth t, row.school = k) ↔ k ∈ t.map (fun r => r.school)) ∧
    (∀ row ∈ avg_growth t, row.means.map (fun p => p.1) = numericCols t) := by
  constructor
  · constructor
    · rintro ⟨row, hrow, rfl⟩
      exact (avg_growth_row t row hrow).1
    · exact avg_growth_mem_of_school t k
  · intro row hrow
    rw [(avg_growth_row t row hrow).2]
    simp [Function.comp_def]

/-- Witness for C6: the unconfigured school is present and its summary
row carries exactly the numeric growth columns. -/
theorem avg_growth_no_config_join_witness :
    "새론고" ∈ noCfgT.map (fun r => r.school) ∧
    (SummaryRow.mk "새론고" [("생중량(g)", 1)]).means.map (fun p => p.1) = numericCols noCfgT := by
  have h := avg_growth_no_config_join noCfgT "새론고"
  exact ⟨h.1.mp ⟨⟨"새론고", [("생중량(g)", 1)]⟩, by decide, rfl⟩, h.2 _ (by decide)⟩

theorem find?_map_replace_ne (acc : List (String × α)) (k target : String) (v : α)
    (h : target ≠ k) :
    (acc.map (fun p => if p.1 = k then (k, v) else p)).find? (fun p => p.1 = target) =
      acc.find? (fun p => p.1 = target) := by
  induction acc with
  | nil => rfl
  | cons a acc ih =>
    by_cases ha : a.1 = k
    · have hfa : (if a.1 = k then (k, v) else a) = (k, v) := if_pos ha
      rw [List.map_cons, hfa]
      rw [List.find?_cons_of_neg _ (by simpa using fun hh : k = target => h hh.symm)]
      rw [List.find?_cons_of_neg _ (by simpa [ha] using fun hh : k = target => h hh.symm)]
      exact ih
    · have hfa : (if a.1 = k then (k, v) else a) = a := if_neg ha
      by_cases ht : a.1 = target
      · rw [List.map_cons, hfa, List.find?_cons_of_pos _ (by simpa using ht),
          List.find?_cons_of_pos _ (by simpa using ht)]
      · rw [List.map_cons, hfa, List.find?_cons_of_neg _ (by simpa using ht),
          List.find?_cons_of_neg _ (by simpa using ht)]
        exact ih

theorem find?_map_replace_eq (acc : List (String × α)) (k : String) (v : α)
    (h : acc.any (fun p => p.1 = k) = true) :
    (acc.map (fun p => if p.1 = k then (k, v) else p)).find? (fun p => p.1 = k) =
      some (k, v) := by
  induction acc with
  | nil => simp at h
  | cons a acc ih =>
    by_cases ha : a.1 = k
    · simp [List.find?_cons, ha]
    · have h' : acc.any (fun p => p.1 = k) = true := by simpa [List.any_cons, ha] using h
      simp [List.find?_cons, ha, ih h']

theorem find?_dictInsert (acc : List (String × α)) (k target : String) (v : α) :
    (dictInsert acc k v).find? (fun p => p.1 = target) =
      if target = k then some (k, v) else acc.find? (fun p => p.1 = target) := by
  by_cases hmem : acc.any (fun p => p.1 = k) = true
  · rw [dictInsert, if_pos hmem]
    by_cases ht : target = k
    · subst ht
      simp [find?_map_replace_eq acc target v hmem]
    · simp [find?_map_replace_ne acc k target v ht, ht]
  · rw [dictInsert, if_neg hmem]
    have hnotk : ∀ p ∈ acc, p.1 ≠ k := by
      intro p hp
      by_contra hc
      exact hmem (List.any_eq_true.mpr ⟨p, hp, by simpa using hc⟩)
    rw [List.find?_append]
    by_cases ht : target = k
    · subst ht
      have hnone : acc.find? (fun p => p.1 = target) = none :=
        List.find?_eq_none.mpr (fun p hp => by simpa using hnotk p hp)
      simp [hnone, List.find?_cons]
    · have hsingle : ([(k, v)] : List (String × α)).find? (fun p => p.1 = target) = none := by
        rw [List.find?_cons_of_neg _ (by simpa using fun hh : k = target => ht hh.symm)]
        rfl
      simp [hsingle, ht]

theorem keys_nodup_dictInsert (acc : List (String × α)) (k : String) (v : α)
    (h : (acc.map (fun p => p.1)).Nodup) :
    ((dictInsert acc k v).map (fun p => p.1)).Nodup := by
  by_cases hmem : acc.any (fun p => p.1 = k) = true
  · rw [dictInsert, if_pos hmem, List.map_map]
    have hcomp : ((fun p => p.1) ∘ (fun p : String × α => if p.1 = k then (k, v) else p)) =
        fun p => p.1 := by
      funext p
      by_cases hp : p.1 = k
      · simp [hp]
      · simp [hp]
    rw [hcomp]
    exact h
  · rw [dictInsert, if_neg hmem, List.map_append]
    refine List.Nodup.append h (List.nodup_singleton _) ?_
    intro a ha hb
    simp only [List.map_cons, List.map_nil, List.mem_singleton] at hb
    subst hb
    rcases List.mem_map.mp ha with ⟨p, hp, hpk⟩
    exact hmem (List.any_eq_true.mpr ⟨p, hp, by simpa using hpk⟩)

theorem growthSheetsDict_keys_nodup (sheets : List (String × List RawCells)) :
    ((growthSheetsDict sheets).map (fun p => p.1)).Nodup := by
  have go : ∀ (ss : List (String × List RawCells)) (acc : List (String × List GrowthRow)),
      (acc.map (fun p => p.1)).Nodup →
      (((ss.foldl (fun d sheet =>
        dictInsert d (nfc sheet.1) (sheet.2.map (fun r => ⟨nfc sheet.1, r⟩))) acc).map
          (fun p => p.1)).Nodup) := by
    intro ss
    induction ss with
    | nil => intro acc h; exact h
    | cons s rest ih =>
      intro acc h
      rw [List.foldl_cons]
      exact ih _ (keys_nodup_dictInsert acc _ _ h)
  exact go sheets [] (by simp)

theorem growthSheetsDict_tagged (sheets : List (String × List RawCells)) :
    ∀ p ∈ growthSheetsDict sheets, ∀ r ∈ p.2, r.school = p.1 := by
  have go : ∀ (ss : List (String × List RawCells)) (acc : List (String × List GrowthRow)),
      (∀ p ∈ acc, ∀ r ∈ p.2, r.school = p.1) →
      ∀ p ∈ ss.foldl (fun d sheet =>
        dictInsert d (nfc sheet.1) (sheet.2.map (fun r => ⟨nfc sheet.1, r⟩))) acc,
      ∀ r ∈ p.2, r.school = p.1 := by
    intro ss
    induction ss with
    | nil => intro acc h; exact h
    | cons s rest ih =>
      intro acc h
      rw [List.foldl_cons]
      refine ih _ ?_
      intro p hp r hr
      by_cases hmem : acc.any (fun q => q.1 = nfc s.1) = true
      · rw [dictInsert, if_pos hmem] at hp
        rcases List.mem_map.mp hp with ⟨q, hq, rfl⟩
        by_cases hqk : q.1 = nfc s.1
        · rw [if_pos hqk] at hr ⊢
          rcases List.mem_map.mp hr with ⟨r', _, rfl⟩
          rfl
        · rw [if_neg hqk] at hr ⊢
          exact h q hq r hr
      · rw [dictInsert, if_neg hmem] at hp
        rcases List.mem_append.mp hp with hp | hp
        · exact h p hp r hr
        · simp only [List.mem_singleton] at hp
          subst hp
          rcases List.mem_map.mp hr with ⟨r', _, rfl⟩
          rfl
  intro p hp
  exact go sheets [] (by simp) p hp

theorem growthSheetsDict_find? (sheets : List (String × List RawCells)) (k : String) :
    (growthSheetsDict sheets).find? (fun p => p.1 = k) =
      match sheets.reverse.find? (fun s => nfc s.1 = k) with
      | some s => some (k, s.2.map (fun r => ⟨k, r⟩))
      | none => none := by
  have go : ∀ (ss : List (String × List RawCells)) (acc : List (String × List GrowthRow)),
      ((ss.foldl (fun d sheet =>
        dictInsert d (nfc sheet.1) (sheet.2.map (fun r => ⟨nfc sheet.1, r⟩))) acc).find?
        (fun p => p.1 = k)) =
      match ss.reverse.find? (fun s => nfc s.1 = k) with
      | some s => some (k, s.2.map (fun r => ⟨k, r⟩))
      | none => acc.find? (fun p => p.1 = k) := by
    intro ss
    induction ss with
    | nil => intro acc; rfl
    | cons s rest ih =>
      intro acc
      rw [List.foldl_cons, ih, List.reverse_cons, List.find?_append]
      cases hrest : rest.reverse.find? (fun s => nfc s.1 = k) with
      | some s' => simp
      | none =>
        by_cases hs : nfc s.1 = k
        · rw [find?_dictInsert, if_pos hs.symm,
            List.find?_cons_of_pos _ (by simpa using hs)]
          rw [hs]
          simp
        · rw [find?_dictInsert, if_neg (fun hh => hs hh.symm),
            List.find?_cons_of_neg _ (by simpa using hs)]
          simp
  exact go sheets []

/-- C10: when two sheets of the workbook have NFC-equal names, the
rows grouped under that normalized name in the unified growth table are
exactly the rows of the last such sheet in enumeration order, each
tagged with the normalized name — the `growth_data` dict of `main.py`
line 72 is keyed by the normalized sheet name, so a later sheet
overwrites an earlier one. -/
theorem growth_last_sheet_wins (sheets : List (String × List RawCells)) (k : String) :
    ((growthSheetsDict sheets).flatMap (fun p => p.2)).filter (fun r => r.school = k) =
      match sheets.reverse.find? (fun s => nfc s.1 = k) with
      | some s => s.2.map (fun r => ⟨k, r⟩)
      | none => [] := by
  have key : ∀ d : List (String × List GrowthRow),
      (d.map (fun p => p.1)).Nodup →
      (∀ p ∈ d, ∀ r ∈ p.2, r.school = p.1) →
      (d.flatMap (fun p => p.2)).filter (fun r => r.school = k) =
        match d.find? (fun p => p.1 = k) with
        | some p => p.2
        | none => [] := by
    intro d
    induction d with
    | nil => intro _ _; rfl
    | cons p d ih =>
      intro hnd htag
      rw [List.flatMap_cons, List.filter_append]
      by_cases hp : p.1 = k
      · have hhead : p.2.filter (fun r => r.school = k) = p.2 := by
          refine List.filter_eq_self.mpr ?_
          intro r hr
          simp [htag p (List.mem_cons_self _ _) r hr, hp]
        have hnd2 : (p.1 :: d.map (fun q => q.1)).Nodup := by
          rw [List.map_cons] at hnd
          exact hnd
        have hknotin : k ∉ d.map (fun q => q.1) := hp ▸ (List.nodup_cons.mp hnd2).1
        have htail : (d.flatMap (fun q => q.2)).filter (fun r => r.school = k) = [] := by
          refine List.filter_eq_nil_iff.mpr ?_
          intro r hr
          rcases List.mem_flatMap.mp hr with ⟨q, hq, hrq⟩
          have hschool := htag q (List.mem_cons_of_mem _ hq) r hrq
          simp only [hschool, decide_eq_true_eq]
          intro hqe
          exact hknotin (List.mem_map.mpr ⟨q, hq, hqe⟩)
        rw [hhead, htail, List.append_nil, List.find?_cons_of_pos _ (by simpa using hp)]
      · have hhead : p.2.filter (fun r => r.school = k) = [] := by
          refine List.filter_eq_nil_iff.mpr ?_
          intro r hr
          simp [htag p (List.mem_cons_self _ _) r hr, hp]
        rw [hhead, List.nil_append, List.find?_cons_of_neg _ (by simpa using hp)]
        have hnd2 : (p.1 :: d.map (fun q => q.1)).Nodup := by
          rw [List.map_cons] at hnd
          exact hnd
        exact ih (List.nodup_cons.mp hnd2).2
          (fun q hq => htag q (List.mem_cons_of_mem _ hq))
  rw [key (growthSheetsDict sheets) (growthSheetsDict_keys_nodup sheets)
    (growthSheetsDict_tagged sheets), growthSheetsDict_find? sheets k]
  cases sheets.reverse.find? (fun s => nfc s.1 = k) with
  | some s => rfl
  | none => rfl

theorem growthSheetsDict_of_nodup (sheets : List (String × List RawCells))
    (hnd : (sheets.map (fun p => nfc p.1)).Nodup) :
    growthSheetsDict sheets =
      sheets.map (fun p => (nfc p.1, p.2.map (fun r => ⟨nfc p.1, r⟩))) := by
  have go : ∀ (ss : List (String × List RawCells)) (acc : List (String × List GrowthRow)),
      (∀ p ∈ acc, p.1 ∉ ss.map (fun s => nfc s.1)) →
      ((ss.map (fun p => nfc p.1)).Nodup) →
      ss.foldl (fun d sheet =>
        dictInsert d (nfc sheet.1) (sheet.2.map (fun r => ⟨nfc sheet.1, r⟩))) acc =
        acc ++ ss.map (fun p => (nfc p.1, p.2.map (fun r => ⟨nfc p.1, r⟩))) := by
    intro ss
    induction ss with
    | nil => intro acc _ _; simp
    | cons s rest ih =>
      intro acc hdisj hnd'
      rw [List.foldl_cons]
      have hmem : ¬(acc.any (fun p => p.1 = nfc s.1) = true) := by
        intro hc
        rcases List.any_eq_true.mp hc with ⟨p, hp, hpk⟩
        refine hdisj p hp ?_
        rw [List.map_cons]
        exact List.mem_cons.mpr (Or.inl (by simpa using hpk))
      have hndc : (nfc s.1 :: rest.map (fun p => nfc p.1)).Nodup := by
        rw [List.map_cons] at hnd'
        exact hnd'
      have hdisj2 : ∀ p ∈ acc ++ [(nfc s.1, s.2.map (fun r => (⟨nfc s.1, r⟩ : GrowthRow)))],
          p.1 ∉ rest.map (fun s => nfc s.1) := by
        intro p hp
        rcases List.mem_append.mp hp with hp | hp
        · intro hc
          refine hdisj p hp ?_
          rw [List.map_cons]
          exact List.mem_cons.mpr (Or.inr hc)
        · simp only [List.mem_singleton] at hp
          subst hp
          exact (List.nodup_cons.mp hndc).1
      rw [dictInsert, if_neg hmem, ih _ hdisj2 (List.nodup_cons.mp hndc).2]
      simp
  exact go sheets [] (by simp) hnd

theorem schools_toFinset (sheets : List (String × List RawCells))
    (hne : ∀ p ∈ sheets, p.2 ≠ []) :
    (sheets.flatMap (fun p => p.2.map (fun _ => nfc p.1))).toFinset =
      (sheets.map (fun p => nfc p.1)).toFinset := by
  induction sheets with
  | nil => rfl
  | cons s rest ih =>
    rw [List.flatMap_cons, List.toFinset_append, List.map_cons, List.toFinset_cons]
    rw [ih (fun p hp => hne p (List.mem_cons_of_mem _ hp))]
    have hrep : (s.2.map (fun _ => nfc s.1)).toFinset = {nfc s.1} := by
      rw [List.map_const']
      refine List.toFinset_replicate_of_ne_zero ?_
      intro hc
      exact hne s (List.mem_cons_self _ _) (List.length_eq_zero.mp hc)
    rw [hrep, Finset.insert_eq]

/-- C3 counterexample: the claim fails as stated.  A workbook whose two
sheet names are NFC-equal (one stored decomposed) loads into a table
with one distinct school value, not two — and only the two rows of the
last such sheet survive; likewise a workbook with an empty sheet yields
fewer distinct school values than sheets. -/
theorem growth_distinct_schools_counterexample :
    collideSheets.length = 2 ∧
    find_file collideDir growth_filename = some (growth_filename, .xlsx collideSheets) ∧
    ((load_grow collideDir).map (fun r => r.school)).dedup.length = 1 ∧
    (load_grow collideDir).length = 2 ∧
    emptySheets.length = 2 ∧
    find_file emptySheetDir growth_filename = some (growth_filename, .xlsx emptySheets) ∧
    ((load_grow emptySheetDir).map (fun r => r.school)).dedup.length = 1 := by
  decide

/-- C3 amended: for a workbook whose sheets have pairwise-distinct
NFC-normalized names and at least one row each, the unified growth
table is the concatenation of the sheets with every row tagged with its
own sheet's normalized name, and it shows exactly as many distinct
school values as there are sheets. -/
theorem load_grow_distinct_schools (dir : DirListing) (name : String)
    (sheets : List (String × List RawCells))
    (hdir : find_file dir growth_filename = some (name, .xlsx sheets))
    (hnd : (sheets.map (fun p => nfc p.1)).Nodup)
    (hne : ∀ p ∈ sheets, p.2 ≠ []) :
    load_grow dir = sheets.flatMap (fun p => p.2.map (fun r => ⟨nfc p.1, r⟩)) ∧
    ((load_grow dir).map (fun r => r.school)).dedup.length = sheets.length := by
  have hload : load_grow dir =
      sheets.flatMap (fun p => p.2.map (fun r => (⟨nfc p.1, r⟩ : GrowthRow))) := by
    simp only [load_grow, hdir]
    rw [growthSheetsDict_of_nodup sheets hnd]
    simp [List.flatMap_map, Function.comp_def]
  refine ⟨hload, ?_⟩
  rw [hload]
  have hmap : (sheets.flatMap (fun p => p.2.map
      (fun r => (⟨nfc p.1, r⟩ : GrowthRow)))).map (fun r => r.school) =
      sheets.flatMap (fun p => p.2.map (fun _ => nfc p.1)) := by
    rw [List.map_flatMap]
    simp [List.map_map, Function.comp_def]
  rw [hmap, ← List.card_toFinset, schools_toFinset sheets hne,
    List.toFinset_card_of_nodup hnd, List.length_map]

/-- Witness for C3 (amended): the four-sheet scenario workbook, stored
under a decomposed filename and with two decomposed sheet names, loads
into a table with exactly four distinct school values. -/
theorem load_grow_distinct_schools_witness :
    ((load_grow [(nfd growth_filename, .xlsx sheetsDemo)]).map
      (fun r => r.school)).dedup.length = sheetsDemo.length :=
  (load_grow_distinct_schools _ (nfd growth_filename) sheetsDemo (by decide) (by decide)
    (by decide)).2
